import Mathlib

/-!
# Verification of the drf-cache core (`drf_cache/caches.py`, `drf_cache/mixins.py`)

Shallow embedding of the serialized-model cache engine:

* `PyObj` models the decoded record representations handled by the engine
  (JSON-representable Python values: `None`, booleans, integers, strings,
  lists, and dicts with string keys).
* The value codec (`SerializedModelCache.compress_value` /
  `decompress_value`) is modelled at token granularity: Python's
  `json.dumps(value, separators=(',', ':'))` produces the compact textual
  rendering of the token stream `jsonDumps value`, and
  `codecs.encode(..., 'zlib')` is an invertible byte transform.  Both are
  external library collaborators (the spec treats the serialization format
  as an opaque byte-producing/consuming collaborator), so a compressed
  cell is represented by the token stream of its JSON text
  (`Stored.zbytes`); `json.loads` is modelled by the executable parser
  `jsonLoads`, whose agreement with `jsonDumps` is proved below.
* The Django cache backend is an association list keyed by
  `(key string, version)` with get / set / delete / prefix-pattern-delete.
-/

/-- A JSON-representable decoded Python value (the serializer output and
anything nested inside it). -/
inductive PyObj where
  | none_ : PyObj
  | pbool : Bool → PyObj
  | pint : Int → PyObj
  | pstr : String → PyObj
  | plist : List PyObj → PyObj
  | pdict : List (String × PyObj) → PyObj

/-- One token of the compact JSON text produced by
`json.dumps(value, separators=(',', ':'))`. -/
inductive Tok where
  | lbrace : Tok
  | rbrace : Tok
  | lbrack : Tok
  | rbrack : Tok
  | comma : Tok
  | colon : Tok
  | tnull : Tok
  | tbool : Bool → Tok
  | tint : Int → Tok
  | tstr : String → Tok
deriving DecidableEq

/-- A value held in one backend cell.  `obj` is a raw Python object stored
directly (compression disabled, or an index entry holding a lookup value);
`zbytes ts` stands for the zlib-compressed utf-8 bytes of the compact JSON
text whose token stream is `ts` (zlib and the token-to-text rendering are
both injective, so the tokens determine the bytes and conversely). -/
inductive Stored where
  | obj : PyObj → Stored
  | zbytes : List Tok → Stored

/-! ## The JSON codec: `json.dumps` and `json.loads` at token granularity -/

mutual

/-- Token stream of `json.dumps(v, separators=(',', ':'))`. -/
def jsonDumps : PyObj → List Tok
  | PyObj.none_ => [Tok.tnull]
  | PyObj.pbool b => [Tok.tbool b]
  | PyObj.pint n => [Tok.tint n]
  | PyObj.pstr s => [Tok.tstr s]
  | PyObj.plist xs => Tok.lbrack :: (dumpsElems xs ++ [Tok.rbrack])
  | PyObj.pdict kvs => Tok.lbrace :: (dumpsMembers kvs ++ [Tok.rbrace])

/-- Comma-separated renderings of the elements of a JSON array. -/
def dumpsElems : List PyObj → List Tok
  | [] => []
  | [x] => jsonDumps x
  | x :: y :: xs => jsonDumps x ++ (Tok.comma :: dumpsElems (y :: xs))

/-- Comma-separated `key:value` renderings of the members of a JSON object. -/
def dumpsMembers : List (String × PyObj) → List Tok
  | [] => []
  | [(k, x)] => Tok.tstr k :: Tok.colon :: jsonDumps x
  | (k, x) :: m :: kvs =>
      (Tok.tstr k :: Tok.colon :: jsonDumps x) ++ (Tok.comma :: dumpsMembers (m :: kvs))

end

mutual

/-- Fuel-bounded recursive-descent parser for one JSON value; returns the
value and the unconsumed tokens. -/
def parseVal : Nat → List Tok → Option (PyObj × List Tok)
  | 0, _ => none
  | _ + 1, [] => none
  | fuel + 1, t :: rest =>
    match t with
    | Tok.tnull => some (PyObj.none_, rest)
    | Tok.tbool b => some (PyObj.pbool b, rest)
    | Tok.tint n => some (PyObj.pint n, rest)
    | Tok.tstr s => some (PyObj.pstr s, rest)
    | Tok.lbrack =>
      match rest with
      | Tok.rbrack :: rest2 => some (PyObj.plist [], rest2)
      | _ =>
        match parseElems fuel rest with
        | some (xs, Tok.rbrack :: rest2) => some (PyObj.plist xs, rest2)
        | _ => none
    | Tok.lbrace =>
      match rest with
      | Tok.rbrace :: rest2 => some (PyObj.pdict [], rest2)
      | _ =>
        match parseMembers fuel rest with
        | some (kvs, Tok.rbrace :: rest2) => some (PyObj.pdict kvs, rest2)
        | _ => none
    | _ => none

/-- Parses a nonempty comma-separated list of JSON values. -/
def parseElems : Nat → List Tok → Option (List PyObj × List Tok)
  | 0, _ => none
  | fuel + 1, ts =>
    match parseVal fuel ts with
    | none => none
    | some (v, rest) =>
      match rest with
      | Tok.comma :: rest2 =>
        match parseElems fuel rest2 with
        | none => none
        | some (vs, rest3) => some (v :: vs, rest3)
      | _ => some ([v], rest)

/-- Parses a nonempty comma-separated list of `key:value` members. -/
def parseMembers : Nat → List Tok → Option (List (String × PyObj) × List Tok)
  | 0, _ => none
  | fuel + 1, ts =>
    match ts with
    | Tok.tstr k :: Tok.colon :: ts2 =>
      match parseVal fuel ts2 with
      | none => none
      | some (v, rest) =>
        match rest with
        | Tok.comma :: rest2 =>
          match parseMembers fuel rest2 with
          | none => none
          | some (kvs, rest3) => some ((k, v) :: kvs, rest3)
        | _ => some ([(k, v)], rest)
    | _ => none

end

/-- `json.loads` on a complete token stream: parse one value and require
that every token is consumed. -/
def jsonLoads (ts : List Tok) : Option PyObj :=
  match parseVal (2 * ts.length + 1) ts with
  | some (v, []) => some v
  | _ => none

/-! ## The key/value backend (Django cache, plus django-redis delete_pattern)

An association list keyed by `(key string, version)`.  `storeSet`
overwrites, `storeGet` reads, `storeDelete` removes one key,
`storeDeletePattern` implements `delete_pattern(key + chr(42))`: the glob
deletes every key having the given string as a prefix (within one version
namespace) and reports how many entries were removed. -/

abbrev Store := List ((String × Nat) × Stored)

def storeGet (st : Store) (k : String) (ver : Nat) : Option Stored :=
  match st.find? (fun e => e.1.1 == k && e.1.2 == ver) with
  | none => none
  | some e => some e.2

def storeSet (st : Store) (k : String) (ver : Nat) (v : Stored) : Store :=
  ((k, ver), v) :: st.filter (fun e => !(e.1.1 == k && e.1.2 == ver))

def storeDelete (st : Store) (k : String) (ver : Nat) : Store :=
  st.filter (fun e => !(e.1.1 == k && e.1.2 == ver))

/-- Prefix test used by the glob `key + chr(42)` of `delete_pattern`. -/
def strHasPrefix (p s : String) : Bool :=
  p.data.isPrefixOf s.data

def storeDeletePattern (st : Store) (pat : String) (ver : Nat) : Store × Nat :=
  let keep := st.filter (fun e => !(strHasPrefix pat e.1.1 && e.1.2 == ver))
  (keep, st.length - keep.length)

/-! ## Cache definitions (`SerializedModelCache` subclasses)

One value of `CacheDef Rec` stands for one concrete cache class over a
record type `Rec`:

* `keyPrefix` is the `key_prefix` class attribute, `className` is
  `self.__class__.__name__`, `version` is the `version` attribute.
* `backendDefaultVersion` is the `VERSION` of the configured Django cache
  backend: a backend call that omits `version=...` (as
  `SerializedModelCacheWithIndexes.delete` / `delete_index` do) operates
  on this namespace.
* `lookupOf` is `getattr(instance, lookup_field)`; lookup values are
  modelled by the string rendering the f-string in `make_key` produces,
  which is also what `set_indexes` stores (any non-string lookup object is
  rendered identically on the write and the read path).
* `serialize` is `serializer_class(instance=instance).data`, the external
  serializer collaborator (the viewset's `get_serializer(...).data` is the
  same function: `__init_subclass__` asserts the two classes coincide).
* `indexes` is the `indexes` attribute of
  `SerializedModelCacheWithIndexes`; `indexed` records whether the class
  is such a subclass (it selects the `set_data` / `delete` overrides when
  the mixins call `cache.set` / `cache.delete`).
* The `timeout` attribute (TTL) is not modelled: no claim concerns expiry.
-/

structure CacheDef (Rec : Type) where
  keyPrefix : String
  className : String
  compress_data : Bool
  version : Nat
  backendDefaultVersion : Nat
  lookupOf : Rec → String
  serialize : Rec → PyObj
  indexes : List (String × (Rec → List String))
  indexed : Bool

namespace SerializedModelCache

/-- `compress_value`: identity when compression is disabled, otherwise
`codecs.encode(json.dumps(value, separators=(',', ':')).encode('utf-8'), 'zlib')`. -/
def compress_value {Rec : Type} (c : CacheDef Rec) (v : PyObj) : Stored :=
  if !c.compress_data then Stored.obj v
  else Stored.zbytes (jsonDumps v)

/-- `decompress_value`: identity when compression is disabled; otherwise
`None` maps to `None` without decoding, and compressed bytes are
zlib-decoded and `json.loads`-parsed.  An `obj` cell reaching the enabled
branch would raise `TypeError` in Python (zlib on a non-bytes object);
that branch is unreachable for values written by this engine and is
mapped to `none`. -/
def decompress_value {Rec : Type} (c : CacheDef Rec) (v : Option Stored) : Option Stored :=
  if !c.compress_data then v
  else
    match v with
    | none => none
    | some (Stored.zbytes ts) => (jsonLoads ts).map Stored.obj
    | some (Stored.obj _) => none

/-- `make_key(lookup_value, suffix)`:
the f-string `key_prefix + class name + ":" + lookup_value + suffix`. -/
def make_key {Rec : Type} (c : CacheDef Rec) (lookup_value suffix : String) : String :=
  c.keyPrefix ++ c.className ++ ":" ++ lookup_value ++ suffix

/-- `get(lookup_value, key_suffix)`. -/
def get {Rec : Type} (c : CacheDef Rec) (st : Store) (lookup_value suffix : String) :
    Option Stored :=
  decompress_value c (storeGet st (make_key c lookup_value suffix) c.version)

/-- `set_data(instance, data, key_suffix)` as executed on a plain
(non-indexed) cache. -/
def set_data {Rec : Type} (c : CacheDef Rec) (st : Store) (r : Rec) (data : PyObj)
    (suffix : String) : Store :=
  storeSet st (make_key c (c.lookupOf r) suffix) c.version (compress_value c data)

/-- `set(instance, key_suffix)` on a plain cache: serialize, write through
`set_data`, return the decoded representation. -/
def set {Rec : Type} (c : CacheDef Rec) (st : Store) (r : Rec) (suffix : String) :
    PyObj × Store :=
  let data := c.serialize r
  (data, set_data c st r data suffix)

/-- `delete(instance, key_suffix)` on a plain cache:
`delete_pattern(key + chr(42), version=self.version)`. -/
def delete {Rec : Type} (c : CacheDef Rec) (st : Store) (r : Rec) (suffix : String) :
    Store × Nat :=
  storeDeletePattern st (make_key c (c.lookupOf r) suffix) c.version

end SerializedModelCache

/-- The f-string rendering `make_key` applies to a lookup value read back
from an index entry.  Index entries written by this engine always hold
`Stored.obj (PyObj.pstr lv)`; the remaining cases model Python's `str()`
of other objects and are unreachable on engine-written stores. -/
def fstr : Stored → String
  | Stored.obj (PyObj.pstr s) => s
  | Stored.obj (PyObj.pint n) => toString n
  | Stored.obj (PyObj.pbool b) => if b then "True" else "False"
  | Stored.obj PyObj.none_ => "None"
  | Stored.obj (PyObj.plist _) => "<list>"
  | Stored.obj (PyObj.pdict _) => "<dict>"
  | Stored.zbytes _ => "<bytes>"

namespace SerializedModelCacheWithIndexes

/-- The automatically populated `index_names` class attribute. -/
def index_names {Rec : Type} (c : CacheDef Rec) : List String :=
  c.indexes.map Prod.fst

/-- `make_index_key(index_name, index_value)`. -/
def make_index_key {Rec : Type} (c : CacheDef Rec) (index_name index_value : String) : String :=
  c.keyPrefix ++ c.className ++ ":i:" ++ index_name ++ ":" ++ index_value

/-- `get_index_keys(instance)`: for every declared index, every extracted
value, in declaration order. -/
def get_index_keys {Rec : Type} (c : CacheDef Rec) (r : Rec) : List String :=
  c.indexes.flatMap (fun p => (p.2 r).map (fun v => make_index_key c p.1 v))

/-- `set_indexes(instance)`: `cache.set(index_key, lookup_value,
version=self.version)` for every index key. -/
def set_indexes {Rec : Type} (c : CacheDef Rec) (st : Store) (r : Rec) : Store :=
  (get_index_keys c r).foldl
    (fun s ik => storeSet s ik c.version (Stored.obj (PyObj.pstr (c.lookupOf r)))) st

/-- `get_for_index(index_name, index_value, key_suffix)`.  The `assert`
on an undeclared index name is modelled as an `Except.error`
(an `AssertionError` raised before any backend access). -/
def get_for_index {Rec : Type} (c : CacheDef Rec) (st : Store)
    (index_name index_value suffix : String) : Except String (Option Stored) :=
  if index_name ∈ index_names c then
    match storeGet st (make_index_key c index_name index_value) c.version with
    | none => Except.ok none
    | some (Stored.obj PyObj.none_) => Except.ok none
    | some sv => Except.ok (SerializedModelCache.get c st (fstr sv) suffix)
  else
    Except.error ("\"" ++ index_name ++ "\" is not a valid index_name")

/-- The `set_data` override: the primary write, then `set_indexes`. -/
def set_data {Rec : Type} (c : CacheDef Rec) (st : Store) (r : Rec) (data : PyObj)
    (suffix : String) : Store :=
  set_indexes c (SerializedModelCache.set_data c st r data suffix) r

/-- The inherited `set` body as executed on an indexed cache
(`self.set_data` dispatches to the override). -/
def set {Rec : Type} (c : CacheDef Rec) (st : Store) (r : Rec) (suffix : String) :
    PyObj × Store :=
  let data := c.serialize r
  (data, set_data c st r data suffix)

/-- The `delete` override: `self.cache.delete(index_key)` for every index
key — note: issued without `version=self.version`, so it targets the
backend's default version namespace — then the inherited pattern delete. -/
def delete {Rec : Type} (c : CacheDef Rec) (st : Store) (r : Rec) (suffix : String) :
    Store × Nat :=
  let st1 := (get_index_keys c r).foldl
    (fun s ik => storeDelete s ik c.backendDefaultVersion) st
  SerializedModelCache.delete c st1 r suffix

/-- `delete_index(index_name, index_value)` (also without `version=`). -/
def delete_index {Rec : Type} (c : CacheDef Rec) (st : Store)
    (index_name index_value : String) : Store :=
  storeDelete st (make_index_key c index_name index_value) c.backendDefaultVersion

end SerializedModelCacheWithIndexes

/-! ## The viewset mixins (`drf_cache/mixins.py`)

`ViewCfg Rec` is one configured viewset: its cache class and its
`cache_instance` hook (the per-record store decision, default
`fun r => true`).  The `process_data` hook's default is the identity and
is modelled as such.  The store of truth appears as explicit collaborator
arguments: `db : List Rec` for `self.get_object()` (a 404 is `none`) and
`storeQuery : List String → List Rec` for
`queryset.filter(lookup__in=misses)` — the querying collaborator promises
which records are returned, not their order. -/

structure ViewCfg (Rec : Type) where
  cache : CacheDef Rec
  cache_instance : Rec → Bool

namespace CachedMixin

/-- `cache.set(...)` as dispatched on the runtime class of the cache. -/
def dispatch_set {Rec : Type} (c : CacheDef Rec) (st : Store) (r : Rec) (suffix : String) :
    PyObj × Store :=
  if c.indexed then SerializedModelCacheWithIndexes.set c st r suffix
  else SerializedModelCache.set c st r suffix

/-- `get_and_cache_data(instance, cache, key_suffix)`: write through the
cache when the store decision allows it, otherwise serialize without
touching the cache. -/
def get_and_cache_data {Rec : Type} (v : ViewCfg Rec) (st : Store) (r : Rec)
    (suffix : String) : PyObj × Store :=
  if v.cache_instance r then dispatch_set v.cache st r suffix
  else (v.cache.serialize r, st)

/-- `get_from_cache(cache, lookup_value, key_suffix)`: the
`refresh_cache` query parameter short-circuits to `None` before any cache
access. -/
def get_from_cache {Rec : Type} (v : ViewCfg Rec) (st : Store) (refresh : Bool)
    (lookup_value suffix : String) : Option Stored :=
  if refresh then none
  else SerializedModelCache.get v.cache st lookup_value suffix

end CachedMixin

namespace CachedRetrieveModelMixin

/-- `retrieve(request, ...)`: cache lookup, then on a miss
`self.get_object()` (modelled as the first store-of-truth record whose
lookup value matches; `none` is the `Http404` path) followed by
`get_and_cache_data`.  Returns the response payload and the resulting
backend state. -/
def retrieve {Rec : Type} (v : ViewCfg Rec) (db : List Rec) (st : Store) (refresh : Bool)
    (lookup_value suffix : String) : Option (Stored × Store) :=
  match CachedMixin.get_from_cache v st refresh lookup_value suffix with
  | some data => some (data, st)
  | none =>
    match db.find? (fun r => v.cache.lookupOf r == lookup_value) with
    | none => none
    | some r =>
      let p := CachedMixin.get_and_cache_data v st r suffix
      some (Stored.obj p.1, p.2)

end CachedRetrieveModelMixin

namespace CachedListModelMixin

/-- The first loop of `list`: for each page position, a cache `get`;
hits are placed at their position, misses append their position to
`cache_miss_indexes` and their lookup value to `cache_misses` and leave
`None` in `results`.  `i` is the value of `enumerate`'s counter at the
head of the remaining page. -/
def listScan {Rec : Type} (c : CacheDef Rec) (st : Store) (suffix : String) :
    List String → Nat → List (Option Stored) × List Nat × List String
  | [], _ => ([], [], [])
  | lv :: page, i =>
    let d := SerializedModelCache.get c st lv suffix
    let rest := listScan c st suffix page (i + 1)
    match d with
    | none => (none :: rest.1, i :: rest.2.1, lv :: rest.2.2)
    | some x => (some x :: rest.1, rest.2.1, rest.2.2)

/-- The second loop of `list`: `zip(cache_miss_indexes, queryset.filter(...))`
pairs miss positions with returned records *positionally*; each pair
caches the record and overwrites `results[index]`. -/
def listFill {Rec : Type} (v : ViewCfg Rec) (suffix : String) :
    List (Nat × Rec) → Store → List (Option Stored) → List (Option Stored) × Store
  | [], st, results => (results, st)
  | (i, r) :: pairs, st, results =>
    let p := CachedMixin.get_and_cache_data v st r suffix
    listFill v suffix pairs p.2 (results.set i (some (Stored.obj p.1)))

/-- `list(request, ...)` on a paginated request: `page` is the paginated
sequence of lookup values, `storeQuery` is the batched
`queryset.filter(lookup__in=cache_misses)` collaborator.  Returns the
result sequence and the resulting backend state. -/
def list {Rec : Type} (v : ViewCfg Rec) (storeQuery : List String → List Rec) (st : Store)
    (suffix : String) (page : List String) : List (Option Stored) × Store :=
  let scan := listScan v.cache st suffix page 0
  let loaded := storeQuery scan.2.2
  listFill v suffix (scan.2.1.zip loaded) st scan.1

end CachedListModelMixin


/-! ## Concrete instantiations used by witnesses and counterexamples

Records are modelled by their primary-key string; the serializer renders a
record as a small JSON object.  The compression-enabled and
compression-disabled variants share everything else.  The `*Cex*`
definitions build the concrete scenarios in which a claim fails. -/

def demoSerialize (r : String) : PyObj :=
  PyObj.pdict [("id", PyObj.pstr r), ("tags", PyObj.plist [PyObj.pint 1, PyObj.none_])]

def demoCacheOn : CacheDef String where
  keyPrefix := "p:"
  className := "ArticleCache"
  compress_data := true
  version := 1
  backendDefaultVersion := 1
  lookupOf := fun r => r
  serialize := demoSerialize
  indexes := []
  indexed := false

def demoCacheOff : CacheDef String where
  keyPrefix := ""
  className := "C"
  compress_data := false
  version := 1
  backendDefaultVersion := 1
  lookupOf := fun r => r
  serialize := demoSerialize
  indexes := []
  indexed := false

/-- The extractor of the demo "slug" index: every record carries the one
slug "abc". -/
def demoSlugGetter : String → List String := fun _ => ["abc"]

/-- An indexed cache with one declared index, "slug", whose extractor
returns a fixed slug for every record. -/
def demoIndexed : CacheDef String where
  keyPrefix := ""
  className := "C"
  compress_data := false
  version := 1
  backendDefaultVersion := 1
  lookupOf := fun r => r
  serialize := demoSerialize
  indexes := [("slug", demoSlugGetter)]
  indexed := true

/-- The same indexed cache with `version = 2` while the backend default
version stays 1 (the scenario in which the version-less index deletes
miss their target). -/
def demoIndexedV2 : CacheDef String where
  keyPrefix := ""
  className := "C"
  compress_data := false
  version := 2
  backendDefaultVersion := 1
  lookupOf := fun r => r
  serialize := demoSerialize
  indexes := [("slug", demoSlugGetter)]
  indexed := true

def demoView : ViewCfg String where
  cache := demoCacheOff
  cache_instance := fun _ => true

def demoViewNoStore : ViewCfg String where
  cache := demoCacheOff
  cache_instance := fun _ => false

/-- The store of truth for the batch scenarios, in the order the backing
database returns rows: descending primary key. -/
def demoDb : List String := ["9", "5", "2"]

/-- `queryset.filter(lookup__in=lvs)` over `demoDb`. -/
def demoQuery (lvs : List String) : List String :=
  demoDb.filter (fun r => lvs.contains r)

/-- A backend state holding a stale entry for record "7" (to show that
force-refresh ignores and overwrites it). -/
def demoStaleStore : Store :=
  storeSet [] (SerializedModelCache.make_key demoCacheOff "7" "") 1
    (Stored.obj (PyObj.pstr "stale"))

/-- A backend state holding a cached entry for record "5" only. -/
def demoStore5 : Store :=
  (SerializedModelCache.set demoCacheOff [] "5" "").2


/-! ## Round-trip correctness of the JSON codec -/

/-- Every rendered value starts with a value-opening token. -/
theorem jsonDumps_head (v : PyObj) :
    ∃ t ts, jsonDumps v = t :: ts ∧ t ≠ Tok.rbrack ∧ t ≠ Tok.rbrace ∧ t ≠ Tok.comma := by
  cases v with
  | none_ =>
    exact ⟨Tok.tnull, [], by simp [jsonDumps], fun h => Tok.noConfusion h,
      fun h => Tok.noConfusion h, fun h => Tok.noConfusion h⟩
  | pbool b =>
    exact ⟨Tok.tbool b, [], by simp [jsonDumps], fun h => Tok.noConfusion h,
      fun h => Tok.noConfusion h, fun h => Tok.noConfusion h⟩
  | pint n =>
    exact ⟨Tok.tint n, [], by simp [jsonDumps], fun h => Tok.noConfusion h,
      fun h => Tok.noConfusion h, fun h => Tok.noConfusion h⟩
  | pstr s =>
    exact ⟨Tok.tstr s, [], by simp [jsonDumps], fun h => Tok.noConfusion h,
      fun h => Tok.noConfusion h, fun h => Tok.noConfusion h⟩
  | plist xs =>
    exact ⟨Tok.lbrack, dumpsElems xs ++ [Tok.rbrack], by simp [jsonDumps],
      fun h => Tok.noConfusion h, fun h => Tok.noConfusion h, fun h => Tok.noConfusion h⟩
  | pdict kvs =>
    exact ⟨Tok.lbrace, dumpsMembers kvs ++ [Tok.rbrace], by simp [jsonDumps],
      fun h => Tok.noConfusion h, fun h => Tok.noConfusion h, fun h => Tok.noConfusion h⟩

theorem dumpsElems_cons_decomp (x : PyObj) (xs : List PyObj) :
    ∃ tl, dumpsElems (x :: xs) = jsonDumps x ++ tl := by
  cases xs with
  | nil => exact ⟨[], by simp [dumpsElems]⟩
  | cons y ys => exact ⟨Tok.comma :: dumpsElems (y :: ys), by simp [dumpsElems]⟩

theorem dumpsMembers_cons_decomp (k : String) (x : PyObj) (kvs : List (String × PyObj)) :
    ∃ tl, dumpsMembers ((k, x) :: kvs) = Tok.tstr k :: Tok.colon :: (jsonDumps x ++ tl) := by
  cases kvs with
  | nil => exact ⟨[], by simp [dumpsMembers]⟩
  | cons m ms => exact ⟨Tok.comma :: dumpsMembers (m :: ms), by simp [dumpsMembers]⟩

theorem parseVal_lbrack_ne (f : Nat) (l : List Tok) (h : ∀ l2, l ≠ Tok.rbrack :: l2) :
    parseVal (f + 1) (Tok.lbrack :: l)
      = match parseElems f l with
        | some (xs, Tok.rbrack :: rest2) => some (PyObj.plist xs, rest2)
        | _ => none := by
  match l with
  | [] => simp [parseVal]
  | t :: ts =>
    cases t with
    | rbrack => exact absurd rfl (h ts)
    | _ => simp [parseVal]

theorem parseVal_lbrace_ne (f : Nat) (l : List Tok) (h : ∀ l2, l ≠ Tok.rbrace :: l2) :
    parseVal (f + 1) (Tok.lbrace :: l)
      = match parseMembers f l with
        | some (kvs, Tok.rbrace :: rest2) => some (PyObj.pdict kvs, rest2)
        | _ => none := by
  match l with
  | [] => simp [parseVal]
  | t :: ts =>
    cases t with
    | rbrace => exact absurd rfl (h ts)
    | _ => simp [parseVal]

theorem parser_correct (fuel : Nat) :
    (∀ v rest, 2 * (jsonDumps v).length ≤ fuel →
      parseVal fuel (jsonDumps v ++ rest) = some (v, rest)) ∧
    (∀ xs rest, xs ≠ [] → 2 * (dumpsElems xs).length + 1 ≤ fuel →
      parseElems fuel (dumpsElems xs ++ (Tok.rbrack :: rest)) = some (xs, Tok.rbrack :: rest)) ∧
    (∀ kvs rest, kvs ≠ [] → 2 * (dumpsMembers kvs).length + 1 ≤ fuel →
      parseMembers fuel (dumpsMembers kvs ++ (Tok.rbrace :: rest))
        = some (kvs, Tok.rbrace :: rest)) := by
  induction fuel with
  | zero =>
    refine ⟨fun v rest h => ?_, fun xs rest hne h => by omega, fun kvs rest hne h => by omega⟩
    obtain ⟨t, ts, hv, -, -, -⟩ := jsonDumps_head v
    rw [hv, List.length_cons] at h
    omega
  | succ f ih =>
    obtain ⟨ihV, ihE, ihM⟩ := ih
    refine ⟨fun v rest h => ?_, fun xs rest hne h => ?_, fun kvs rest hne h => ?_⟩
    · cases v with
      | none_ => simp [jsonDumps, parseVal]
      | pbool b => simp [jsonDumps, parseVal]
      | pint n => simp [jsonDumps, parseVal]
      | pstr s => simp [jsonDumps, parseVal]
      | plist xs =>
        cases xs with
        | nil => simp [jsonDumps, dumpsElems, parseVal]
        | cons x xs =>
          have hshape : jsonDumps (PyObj.plist (x :: xs)) ++ rest
              = Tok.lbrack :: (dumpsElems (x :: xs) ++ (Tok.rbrack :: rest)) := by
            simp [jsonDumps]
          obtain ⟨tl, htl⟩ := dumpsElems_cons_decomp x xs
          obtain ⟨t, ts, hx, hnb, -, -⟩ := jsonDumps_head x
          have hhead : ∀ l2, dumpsElems (x :: xs) ++ (Tok.rbrack :: rest) ≠ Tok.rbrack :: l2 := by
            intro l2 hcontra
            rw [htl, hx] at hcontra
            simp at hcontra
            exact hnb hcontra.1
          have hlen : (jsonDumps (PyObj.plist (x :: xs))).length
              = (dumpsElems (x :: xs)).length + 2 := by
            simp [jsonDumps]
          rw [hshape, parseVal_lbrack_ne f _ hhead,
            ihE (x :: xs) rest (by simp) (by omega)]
      | pdict kvs =>
        cases kvs with
        | nil => simp [jsonDumps, dumpsMembers, parseVal]
        | cons kv kvs =>
          obtain ⟨k, x⟩ := kv
          have hshape : jsonDumps (PyObj.pdict ((k, x) :: kvs)) ++ rest
              = Tok.lbrace :: (dumpsMembers ((k, x) :: kvs) ++ (Tok.rbrace :: rest)) := by
            simp [jsonDumps]
          obtain ⟨tl, htl⟩ := dumpsMembers_cons_decomp k x kvs
          have hhead : ∀ l2,
              dumpsMembers ((k, x) :: kvs) ++ (Tok.rbrace :: rest) ≠ Tok.rbrace :: l2 := by
            intro l2 hcontra
            rw [htl] at hcontra
            simp at hcontra
          have hlen : (jsonDumps (PyObj.pdict ((k, x) :: kvs))).length
              = (dumpsMembers ((k, x) :: kvs)).length + 2 := by
            simp [jsonDumps]
          rw [hshape, parseVal_lbrace_ne f _ hhead,
            ihM ((k, x) :: kvs) rest (by simp) (by omega)]
    · cases xs with
      | nil => exact absurd rfl hne
      | cons x xs =>
        cases xs with
        | nil =>
          have hd : dumpsElems [x] = jsonDumps x := by simp [dumpsElems]
          rw [hd] at h ⊢
          rw [parseElems, ihV x (Tok.rbrack :: rest) (by omega)]
        | cons y ys =>
          have hd : dumpsElems (x :: y :: ys)
              = jsonDumps x ++ (Tok.comma :: dumpsElems (y :: ys)) := by
            simp [dumpsElems]
          have hlen : (dumpsElems (x :: y :: ys)).length
              = (jsonDumps x).length + 1 + (dumpsElems (y :: ys)).length := by
            simp [hd]
            omega
          have hshape : dumpsElems (x :: y :: ys) ++ (Tok.rbrack :: rest)
              = jsonDumps x ++ (Tok.comma :: (dumpsElems (y :: ys) ++ (Tok.rbrack :: rest))) := by
            simp [hd]
          rw [hshape, parseElems, ihV x _ (by omega)]
          simp [ihE (y :: ys) rest (by simp) (by omega)]
    · cases kvs with
      | nil => exact absurd rfl hne
      | cons kv kvs =>
        obtain ⟨k, x⟩ := kv
        cases kvs with
        | nil =>
          have hd : dumpsMembers [(k, x)] = Tok.tstr k :: Tok.colon :: jsonDumps x := by
            simp [dumpsMembers]
          have hlen : (dumpsMembers [(k, x)]).length = (jsonDumps x).length + 2 := by
            simp [hd]
          rw [hd]
          have hshape : (Tok.tstr k :: Tok.colon :: jsonDumps x) ++ (Tok.rbrace :: rest)
              = Tok.tstr k :: Tok.colon :: (jsonDumps x ++ (Tok.rbrace :: rest)) := by
            simp
          rw [hshape, parseMembers, ihV x (Tok.rbrace :: rest) (by omega)]
        | cons m ms =>
          have hd : dumpsMembers ((k, x) :: m :: ms)
              = (Tok.tstr k :: Tok.colon :: jsonDumps x)
                ++ (Tok.comma :: dumpsMembers (m :: ms)) := by
            simp [dumpsMembers]
          have hlen : (dumpsMembers ((k, x) :: m :: ms)).length
              = (jsonDumps x).length + 3 + (dumpsMembers (m :: ms)).length := by
            simp [hd]
            omega
          have hshape : dumpsMembers ((k, x) :: m :: ms) ++ (Tok.rbrace :: rest)
              = Tok.tstr k :: Tok.colon ::
                  (jsonDumps x
                    ++ (Tok.comma :: (dumpsMembers (m :: ms) ++ (Tok.rbrace :: rest)))) := by
            simp [hd]
          rw [hshape, parseMembers, ihV x _ (by omega)]
          simp [ihM (m :: ms) rest (by simp) (by omega)]

/-- `json.loads` inverts `json.dumps` on every representable value. -/
theorem jsonLoads_jsonDumps (v : PyObj) : jsonLoads (jsonDumps v) = some v := by
  have h := (parser_correct (2 * (jsonDumps v).length + 1)).1 v [] (by omega)
  rw [List.append_nil] at h
  simp [jsonLoads, h]

theorem jsonDumps_inj {a b : PyObj} (h : jsonDumps a = jsonDumps b) : a = b := by
  have ha := jsonLoads_jsonDumps a
  rw [h, jsonLoads_jsonDumps b] at ha
  exact (Option.some.inj ha).symm

instance : DecidableEq PyObj := fun a b =>
  decidable_of_iff (jsonDumps a = jsonDumps b) ⟨jsonDumps_inj, fun h => by rw [h]⟩

instance : DecidableEq Stored := fun a b =>
  match a, b with
  | Stored.obj x, Stored.obj y =>
    if h : x = y then isTrue (by rw [h]) else isFalse (fun hh => h (Stored.obj.inj hh))
  | Stored.obj _, Stored.zbytes _ => isFalse (fun hh => Stored.noConfusion hh)
  | Stored.zbytes _, Stored.obj _ => isFalse (fun hh => Stored.noConfusion hh)
  | Stored.zbytes x, Stored.zbytes y =>
    if h : x = y then isTrue (by rw [h]) else isFalse (fun hh => h (Stored.zbytes.inj hh))

/-! ## Backend lemmas -/

theorem find?_filter_eq {α : Type} (p q : α → Bool) (h : ∀ e, q e = true → p e = true) :
    ∀ l : List α, (l.filter p).find? q = l.find? q := by
  intro l
  induction l with
  | nil => rfl
  | cons e l ih =>
    by_cases hp : p e = true
    · rw [List.filter_cons_of_pos hp]
      by_cases hq : q e = true
      · rw [List.find?_cons_of_pos _ hq, List.find?_cons_of_pos _ hq]
      · rw [List.find?_cons_of_neg _ hq, List.find?_cons_of_neg _ hq, ih]
    · have hq : ¬ (q e = true) := fun hq => hp (h e hq)
      rw [List.filter_cons_of_neg (by simpa using hp), ih, List.find?_cons_of_neg _ hq]

theorem find?_filter_none {α : Type} (p q : α → Bool) (h : ∀ e, q e = true → p e = false)
    (l : List α) : (l.filter p).find? q = none := by
  rw [List.find?_eq_none]
  intro x hx hq
  rw [List.mem_filter] at hx
  rw [h x hq] at hx
  exact Bool.noConfusion hx.2

theorem storeGet_set_self (st : Store) (k : String) (ver : Nat) (v : Stored) :
    storeGet (storeSet st k ver v) k ver = some v := by
  simp [storeGet, storeSet, List.find?_cons_of_pos]

theorem storeGet_set_ne (st : Store) (k : String) (ver : Nat) (v : Stored) (k2 : String)
    (ver2 : Nat) (h : ¬(k2 = k ∧ ver2 = ver)) :
    storeGet (storeSet st k ver v) k2 ver2 = storeGet st k2 ver2 := by
  unfold storeGet storeSet
  rw [List.find?_cons_of_neg _ (by simp; intro hk hv; exact absurd ⟨hk.symm, hv.symm⟩ h)]
  rw [find?_filter_eq _ _ (fun e he => by
    simp at he
    simp [he.1, he.2]
    tauto)]

theorem storeDelete_get (st : Store) (k : String) (ver : Nat) (k2 : String) (ver2 : Nat) :
    storeGet (storeDelete st k ver) k2 ver2
      = if k2 = k ∧ ver2 = ver then none else storeGet st k2 ver2 := by
  by_cases h : k2 = k ∧ ver2 = ver
  · obtain ⟨rfl, rfl⟩ := h
    rw [if_pos ⟨rfl, rfl⟩]
    unfold storeGet storeDelete
    rw [find?_filter_none _ _ (fun e he => by
      simp at he
      simp [he.1, he.2])]
  · rw [if_neg h]
    unfold storeGet storeDelete
    rw [find?_filter_eq _ _ (fun e he => by
      simp at he
      simp [he.1, he.2]
      tauto)]

theorem storeDeletePattern_get (st : Store) (pat : String) (ver : Nat) (k2 : String)
    (ver2 : Nat) :
    storeGet (storeDeletePattern st pat ver).1 k2 ver2
      = if strHasPrefix pat k2 = true ∧ ver2 = ver then none else storeGet st k2 ver2 := by
  by_cases h : strHasPrefix pat k2 = true ∧ ver2 = ver
  · obtain ⟨hp, rfl⟩ := h
    rw [if_pos ⟨hp, rfl⟩]
    unfold storeGet storeDeletePattern
    rw [find?_filter_none _ _ (fun e he => by
      simp at he
      simp [he.1, he.2, hp])]
  · rw [if_neg h]
    unfold storeGet storeDeletePattern
    rw [find?_filter_eq _ _ (fun e he => by
      simp at he
      simp [he.1, he.2]
      cases hb : strHasPrefix pat k2 with
      | false => exact Or.inl rfl
      | true => exact Or.inr (fun hv => h ⟨hb, hv⟩))]

theorem storeGet_foldl_set_frame (iks : List String) (st : Store) (ver : Nat) (v : Stored)
    (k2 : String) (ver2 : Nat) (h : k2 ∉ iks ∨ ver2 ≠ ver) :
    storeGet (iks.foldl (fun s ik => storeSet s ik ver v) st) k2 ver2
      = storeGet st k2 ver2 := by
  induction iks generalizing st with
  | nil => rfl
  | cons ik iks ih =>
    rw [List.foldl_cons, ih _ (by
      rcases h with h | h
      · exact Or.inl (fun hm => h (List.mem_cons_of_mem _ hm))
      · exact Or.inr h)]
    apply storeGet_set_ne
    rintro ⟨rfl, rfl⟩
    rcases h with h | h
    · exact h (List.mem_cons_self _ _)
    · exact h rfl

theorem storeGet_foldl_set_mem (iks : List String) (st : Store) (ver : Nat) (v : Stored)
    (k : String) (hmem : k ∈ iks) :
    storeGet (iks.foldl (fun s ik => storeSet s ik ver v) st) k ver = some v := by
  induction iks generalizing st with
  | nil => cases hmem
  | cons ik iks ih =>
    by_cases h : k ∈ iks
    · rw [List.foldl_cons]
      exact ih _ h
    · have hk : k = ik := by
        rcases List.mem_cons.mp hmem with h2 | h2
        · exact h2
        · exact absurd h2 h
      subst hk
      rw [List.foldl_cons, storeGet_foldl_set_frame _ _ _ _ _ _ (Or.inl h),
        storeGet_set_self]

theorem storeGet_foldl_delete (iks : List String) (st : Store) (dver : Nat) (k : String)
    (ver : Nat) :
    storeGet (iks.foldl (fun s ik => storeDelete s ik dver) st) k ver
      = if k ∈ iks ∧ ver = dver then none else storeGet st k ver := by
  induction iks generalizing st with
  | nil => simp
  | cons ik iks ih =>
    rw [List.foldl_cons, ih]
    by_cases h1 : k ∈ iks ∧ ver = dver
    · rw [if_pos h1, if_pos ⟨List.mem_cons_of_mem _ h1.1, h1.2⟩]
    · rw [if_neg h1, storeDelete_get]
      by_cases h2 : k = ik ∧ ver = dver
      · rw [if_pos h2, if_pos ⟨by rw [h2.1]; exact List.mem_cons_self _ _, h2.2⟩]
      · rw [if_neg h2, if_neg (by
          rintro ⟨hm, rfl⟩
          rcases List.mem_cons.mp hm with h3 | h3
          · exact h2 ⟨h3, rfl⟩
          · exact h1 ⟨h3, rfl⟩)]

theorem strHasPrefix_refl (s : String) : strHasPrefix s s = true := by
  unfold strHasPrefix
  induction s.data with
  | nil => rfl
  | cons c l ih => simp [List.isPrefixOf, ih]

/-! ## Codec and engine lemmas -/

theorem decompress_compress {Rec : Type} (c : CacheDef Rec) (v : PyObj) :
    SerializedModelCache.decompress_value c (some (SerializedModelCache.compress_value c v))
      = some (Stored.obj v) := by
  cases hc : c.compress_data with
  | true =>
    simp [SerializedModelCache.compress_value, SerializedModelCache.decompress_value, hc,
      jsonLoads_jsonDumps]
  | false =>
    simp [SerializedModelCache.compress_value, SerializedModelCache.decompress_value, hc]

theorem decompress_none {Rec : Type} (c : CacheDef Rec) :
    SerializedModelCache.decompress_value c none = none := by
  cases hc : c.compress_data with
  | true => simp [SerializedModelCache.decompress_value, hc]
  | false => simp [SerializedModelCache.decompress_value, hc]

theorem get_after_set_data {Rec : Type} (c : CacheDef Rec) (st : Store) (r : Rec)
    (data : PyObj) (suffix : String) :
    SerializedModelCache.get c (SerializedModelCache.set_data c st r data suffix)
      (c.lookupOf r) suffix = some (Stored.obj data) := by
  unfold SerializedModelCache.get SerializedModelCache.set_data
  rw [storeGet_set_self]
  exact decompress_compress c data

theorem get_after_set_data_indexed {Rec : Type} (c : CacheDef Rec) (st : Store) (r : Rec)
    (data : PyObj) (suffix : String)
    (hnc : SerializedModelCache.make_key c (c.lookupOf r) suffix
      ∉ SerializedModelCacheWithIndexes.get_index_keys c r) :
    SerializedModelCache.get c (SerializedModelCacheWithIndexes.set_data c st r data suffix)
      (c.lookupOf r) suffix = some (Stored.obj data) := by
  unfold SerializedModelCacheWithIndexes.set_data SerializedModelCacheWithIndexes.set_indexes
  unfold SerializedModelCache.get
  rw [storeGet_foldl_set_frame _ _ _ _ _ _ (Or.inl hnc)]
  exact get_after_set_data c st r data suffix

theorem dispatch_set_fst {Rec : Type} (c : CacheDef Rec) (st : Store) (r : Rec)
    (suffix : String) : (CachedMixin.dispatch_set c st r suffix).1 = c.serialize r := by
  unfold CachedMixin.dispatch_set
  by_cases h : c.indexed
  · simp [h, SerializedModelCacheWithIndexes.set]
  · simp [h, SerializedModelCache.set]

theorem get_and_cache_data_fst {Rec : Type} (v : ViewCfg Rec) (st : Store) (r : Rec)
    (suffix : String) :
    (CachedMixin.get_and_cache_data v st r suffix).1 = v.cache.serialize r := by
  unfold CachedMixin.get_and_cache_data
  by_cases h : v.cache_instance r
  · simp [h, dispatch_set_fst]
  · simp [h]

theorem get_after_dispatch_set {Rec : Type} (c : CacheDef Rec) (st : Store) (r : Rec)
    (suffix : String)
    (hnc : SerializedModelCache.make_key c (c.lookupOf r) suffix
      ∉ SerializedModelCacheWithIndexes.get_index_keys c r) :
    SerializedModelCache.get c ((CachedMixin.dispatch_set c st r suffix).2)
      (c.lookupOf r) suffix = some (Stored.obj (c.serialize r)) := by
  unfold CachedMixin.dispatch_set
  by_cases h : c.indexed
  · simp only [h, if_true, SerializedModelCacheWithIndexes.set]
    exact get_after_set_data_indexed c st r (c.serialize r) suffix hnc
  · simp only [h, if_false, Bool.false_eq_true, SerializedModelCache.set]
    exact get_after_set_data c st r (c.serialize r) suffix

theorem string_data_ext {a b : String} (h : a.data = b.data) : a = b := by
  cases a
  cases b
  exact congrArg String.mk h

/-! ## Claim theorems -/

/-- C2: with compression enabled, decompressing the compression of any
representable decoded value returns exactly that value, and decompressing
`None` returns `None`; with compression disabled both functions are the
identity (`compress_value` is the identity injection of the raw object
into the backend-cell type, `decompress_value` is the identity on cells). -/
theorem C2_codec_round_trip {Rec : Type} (c : CacheDef Rec) (v : PyObj) :
    (c.compress_data = true →
      SerializedModelCache.decompress_value c
          (some (SerializedModelCache.compress_value c v)) = some (Stored.obj v)
        ∧ SerializedModelCache.decompress_value c none = none)
    ∧ (c.compress_data = false →
      SerializedModelCache.compress_value c v = Stored.obj v
        ∧ ∀ w : Option Stored, SerializedModelCache.decompress_value c w = w) := by
  constructor
  · intro _
    exact ⟨decompress_compress c v, decompress_none c⟩
  · intro hc
    constructor
    · simp [SerializedModelCache.compress_value, hc]
    · intro w
      simp [SerializedModelCache.decompress_value, hc]

/-- C2 witness: the round trip evaluated on a concrete nested value with
compression on, and the identity behaviour with compression off. -/
theorem C2_codec_round_trip_witness :
    (SerializedModelCache.decompress_value demoCacheOn
        (some (SerializedModelCache.compress_value demoCacheOn (demoSerialize "7")))
        = some (Stored.obj (demoSerialize "7"))
      ∧ SerializedModelCache.decompress_value demoCacheOn none = none)
    ∧ (SerializedModelCache.compress_value demoCacheOff (demoSerialize "7")
        = Stored.obj (demoSerialize "7")
      ∧ SerializedModelCache.decompress_value demoCacheOff
          (some (Stored.obj (demoSerialize "7"))) = some (Stored.obj (demoSerialize "7"))) :=
  ⟨(C2_codec_round_trip demoCacheOn (demoSerialize "7")).1 rfl,
    ((C2_codec_round_trip demoCacheOff (demoSerialize "7")).2 rfl).1,
    ((C2_codec_round_trip demoCacheOff (demoSerialize "7")).2 rfl).2
      (some (Stored.obj (demoSerialize "7")))⟩

/-- C3 counterexample: the claim asserts collision-freedom for all
distinct `(prefix, identity, version, id, suffix)` tuples, but `make_key`
concatenates the lookup value and the suffix with no separator: within
one cache (same prefix, identity and version namespace), the distinct
pairs `(id="12", suffix="")` and `(id="1", suffix="2")` produce the same
cache key. -/
theorem C3_make_key_collision :
    SerializedModelCache.make_key demoCacheOn "12" ""
        = SerializedModelCache.make_key demoCacheOn "1" "2"
    ∧ (("12", "") : String × String) ≠ ("1", "2") := by
  constructor
  · rfl
  · intro h
    exact absurd (congrArg Prod.fst h) (by decide)

/-- C3 (amended): `make_key` is a pure deterministic function of the
namespace, lookup value and suffix, and the derived keys are injective in
each component separately — two tuples differing in exactly one of the
lookup value, the suffix, the prefix or the class identity (the others
held fixed) always get distinct keys.  Joint collision-freedom over all
components fails (see the counterexample): unseparated concatenation lets
distinct tuples collide across component boundaries. -/
theorem C3_make_key_componentwise {Rec : Type} (c : CacheDef Rec) :
    (∀ lv1 lv2 s, SerializedModelCache.make_key c lv1 s = SerializedModelCache.make_key c lv2 s
      → lv1 = lv2)
    ∧ (∀ lv s1 s2,
        SerializedModelCache.make_key c lv s1 = SerializedModelCache.make_key c lv s2
        → s1 = s2)
    ∧ (∀ (c2 : CacheDef Rec) lv s, c.className = c2.className →
        SerializedModelCache.make_key c lv s = SerializedModelCache.make_key c2 lv s
        → c.keyPrefix = c2.keyPrefix)
    ∧ (∀ (c2 : CacheDef Rec) lv s, c.keyPrefix = c2.keyPrefix →
        SerializedModelCache.make_key c lv s = SerializedModelCache.make_key c2 lv s
        → c.className = c2.className) := by
  refine ⟨fun lv1 lv2 s h => ?_, fun lv s1 s2 h => ?_,
    fun c2 lv s hcn h => ?_, fun c2 lv s hkp h => ?_⟩
  · have hd := congrArg String.data h
    simp only [SerializedModelCache.make_key, String.data_append] at hd
    exact string_data_ext (List.append_cancel_left (List.append_cancel_right hd))
  · have hd := congrArg String.data h
    simp only [SerializedModelCache.make_key, String.data_append] at hd
    exact string_data_ext (List.append_cancel_left hd)
  · have hd := congrArg String.data h
    simp only [SerializedModelCache.make_key, String.data_append] at hd
    rw [hcn] at hd
    exact string_data_ext
      (List.append_cancel_right (List.append_cancel_right
        (List.append_cancel_right (List.append_cancel_right hd))))
  · have hd := congrArg String.data h
    simp only [SerializedModelCache.make_key, String.data_append] at hd
    rw [hkp] at hd
    exact string_data_ext
      (List.append_cancel_left (List.append_cancel_right
        (List.append_cancel_right (List.append_cancel_right hd))))

/-- C3 witness: the componentwise-injectivity theorem applied at concrete
inputs. -/
theorem C3_make_key_componentwise_witness :
    ("5" : String) = "5" ∧ ("x" : String) = "x" :=
  ⟨(C3_make_key_componentwise demoCacheOn).1 "5" "5" "" rfl,
    (C3_make_key_componentwise demoCacheOn).2.1 "5" "x" "x" rfl⟩

/-- C4: on a plain `SerializedModelCache`, immediately after
`set(record, suffix)`, `get(lookup_value(record), suffix)` returns exactly
the decoded representation `set` returned — for every cache configuration
(compression enabled or disabled), every prior backend state, every record
and every suffix; and what `set` returns is the serializer's decoded
representation of the record. -/
theorem C4_set_then_get {Rec : Type} (c : CacheDef Rec) (st : Store) (r : Rec)
    (suffix : String) :
    SerializedModelCache.get c ((SerializedModelCache.set c st r suffix).2)
        (c.lookupOf r) suffix
      = some (Stored.obj ((SerializedModelCache.set c st r suffix).1))
    ∧ (SerializedModelCache.set c st r suffix).1 = c.serialize r := by
  constructor
  · exact get_after_set_data c st r (c.serialize r) suffix
  · rfl

/-- C7: `get_for_index` fails fast with a configuration error (it never
returns a nil result) on every undeclared index name; on a declared name
with no backend mapping for the index value it returns nil; otherwise it
returns the result of the primary `get` on the resolved lookup value. -/
theorem C7_get_for_index_validation {Rec : Type} (c : CacheDef Rec) (st : Store)
    (index_name index_value suffix : String) :
    (index_name ∉ SerializedModelCacheWithIndexes.index_names c →
      SerializedModelCacheWithIndexes.get_for_index c st index_name index_value suffix
        = Except.error ("\"" ++ index_name ++ "\" is not a valid index_name"))
    ∧ (index_name ∈ SerializedModelCacheWithIndexes.index_names c →
      storeGet st (SerializedModelCacheWithIndexes.make_index_key c index_name index_value)
          c.version = none →
      SerializedModelCacheWithIndexes.get_for_index c st index_name index_value suffix
        = Except.ok none)
    ∧ (∀ sv, index_name ∈ SerializedModelCacheWithIndexes.index_names c →
      storeGet st (SerializedModelCacheWithIndexes.make_index_key c index_name index_value)
          c.version = some sv →
      sv ≠ Stored.obj PyObj.none_ →
      SerializedModelCacheWithIndexes.get_for_index c st index_name index_value suffix
        = Except.ok (SerializedModelCache.get c st (fstr sv) suffix)) := by
  refine ⟨fun h => ?_, fun h h2 => ?_, fun sv h h2 h3 => ?_⟩
  · simp [SerializedModelCacheWithIndexes.get_for_index, h]
  · simp [SerializedModelCacheWithIndexes.get_for_index, h, h2]
  · simp only [SerializedModelCacheWithIndexes.get_for_index, if_pos h, h2]

/-- C7 witness: on the demo indexed cache, an undeclared name fails with
the configuration error and a declared name with no mapping returns nil. -/
theorem C7_get_for_index_validation_witness :
    SerializedModelCacheWithIndexes.get_for_index demoIndexed [] "bogus" "abc" ""
        = Except.error "\"bogus\" is not a valid index_name"
    ∧ SerializedModelCacheWithIndexes.get_for_index demoIndexed [] "slug" "zz" ""
        = Except.ok none :=
  ⟨(C7_get_for_index_validation demoIndexed [] "bogus" "abc" "").1 (by decide),
    (C7_get_for_index_validation demoIndexed [] "slug" "zz" "").2.1 (by decide) rfl⟩

/-- C9: when the per-record store decision `cache_instance` is false for a
record loaded after a miss, `get_and_cache_data` still returns the freshly
derived decoded representation but leaves the whole backend state — cache
entries and index entries alike — unchanged. -/
theorem C9_store_decision_skip {Rec : Type} (v : ViewCfg Rec) (st : Store) (r : Rec)
    (suffix : String) (h : v.cache_instance r = false) :
    CachedMixin.get_and_cache_data v st r suffix = (v.cache.serialize r, st) := by
  simp [CachedMixin.get_and_cache_data, h]

/-- C9 witness: the store-decision theorem applied to a viewset whose
predicate rejects every record, starting from the nonempty demo store. -/
theorem C9_store_decision_skip_witness :
    demoViewNoStore.cache_instance "7" = false
    ∧ CachedMixin.get_and_cache_data demoViewNoStore demoStore5 "7" ""
        = (demoSerialize "7", demoStore5) :=
  ⟨rfl, C9_store_decision_skip demoViewNoStore demoStore5 "7" "" rfl⟩

/-- C5 counterexample: the claim quantifies over every record, but a
lookup value containing the engine's key syntax makes the record's
primary key collide with one of its own index keys — here the record
"i:slug:abc" in a compression-disabled indexed cache with index
`("slug", extractor -> ["abc"])`: its primary key and the index key for
("slug", "abc") are both "C:i:slug:abc", so `set_indexes` (which runs
after the primary write) overwrites the primary entry with the lookup
value, and `get_for_index` returns that lookup string instead of the
record's decoded representation. -/
theorem C5_index_collision_cex :
    SerializedModelCacheWithIndexes.get_for_index demoIndexed
        ((SerializedModelCacheWithIndexes.set demoIndexed [] "i:slug:abc" "").2)
        "slug" "abc" ""
      = Except.ok (some (Stored.obj (PyObj.pstr "i:slug:abc")))
    ∧ ¬ (SerializedModelCacheWithIndexes.get_for_index demoIndexed
        ((SerializedModelCacheWithIndexes.set demoIndexed [] "i:slug:abc" "").2)
        "slug" "abc" ""
      = Except.ok (some (Stored.obj (demoIndexed.serialize "i:slug:abc")))) := by
  have heval : SerializedModelCacheWithIndexes.get_for_index demoIndexed
      ((SerializedModelCacheWithIndexes.set demoIndexed [] "i:slug:abc" "").2)
      "slug" "abc" ""
      = Except.ok (some (Stored.obj (PyObj.pstr "i:slug:abc"))) := rfl
  refine ⟨heval, fun h => ?_⟩
  have h2 := heval.symm.trans h
  injection h2 with h3
  injection h3 with h4
  injection h4 with h5
  exact PyObj.noConfusion h5

/-- C5 (amended): after `set(record)` on an indexed cache, for every
declared index and every value its extractor yields on the record,
`get_for_index` returns the record's decoded representation — provided
the record's primary cache key does not coincide with one of its own
index keys (the unseparated key syntax allows such a collision for lookup
values containing ":", see the counterexample; every ordinary lookup
value satisfies the proviso). -/
theorem C5_index_consistency {Rec : Type} (c : CacheDef Rec) (st : Store) (r : Rec)
    (suffix index_name : String) (getter : Rec → List String) (index_value : String)
    (hidx : (index_name, getter) ∈ c.indexes)
    (hval : index_value ∈ getter r)
    (hnc : SerializedModelCache.make_key c (c.lookupOf r) suffix
      ∉ SerializedModelCacheWithIndexes.get_index_keys c r) :
    SerializedModelCacheWithIndexes.get_for_index c
        ((SerializedModelCacheWithIndexes.set c st r suffix).2) index_name index_value suffix
      = Except.ok
          (some (Stored.obj ((SerializedModelCacheWithIndexes.set c st r suffix).1))) := by
  have hmem : index_name ∈ SerializedModelCacheWithIndexes.index_names c :=
    List.mem_map.mpr ⟨(index_name, getter), hidx, rfl⟩
  have hik : SerializedModelCacheWithIndexes.make_index_key c index_name index_value
      ∈ SerializedModelCacheWithIndexes.get_index_keys c r := by
    unfold SerializedModelCacheWithIndexes.get_index_keys
    exact List.mem_flatMap.mpr ⟨(index_name, getter), hidx,
      List.mem_map.mpr ⟨index_value, hval, rfl⟩⟩
  have hstore : storeGet (SerializedModelCacheWithIndexes.set_data c st r (c.serialize r) suffix)
      (SerializedModelCacheWithIndexes.make_index_key c index_name index_value) c.version
      = some (Stored.obj (PyObj.pstr (c.lookupOf r))) := by
    simp only [SerializedModelCacheWithIndexes.set_data,
      SerializedModelCacheWithIndexes.set_indexes]
    exact storeGet_foldl_set_mem _ _ _ _ _ hik
  have hget : SerializedModelCache.get c
      (SerializedModelCacheWithIndexes.set_data c st r (c.serialize r) suffix)
      (c.lookupOf r) suffix = some (Stored.obj (c.serialize r)) :=
    get_after_set_data_indexed c st r (c.serialize r) suffix hnc
  simp only [SerializedModelCacheWithIndexes.get_for_index,
    SerializedModelCacheWithIndexes.set, if_pos hmem, hstore, fstr, hget]

/-- C5 witness: the amended index-consistency theorem at the record "3"
of the demo indexed cache. -/
theorem C5_index_consistency_witness :
    ("slug", demoSlugGetter) ∈ demoIndexed.indexes
    ∧ "abc" ∈ demoSlugGetter "3"
    ∧ SerializedModelCache.make_key demoIndexed "3" ""
        ∉ SerializedModelCacheWithIndexes.get_index_keys demoIndexed "3"
    ∧ SerializedModelCacheWithIndexes.get_for_index demoIndexed
        ((SerializedModelCacheWithIndexes.set demoIndexed [] "3" "").2) "slug" "abc" ""
      = Except.ok
          (some (Stored.obj ((SerializedModelCacheWithIndexes.set demoIndexed [] "3" "").1))) :=
  ⟨List.Mem.head _, List.Mem.head _, by decide,
    C5_index_consistency demoIndexed [] "3" "" "slug" demoSlugGetter "abc"
      (List.Mem.head _) (List.Mem.head _) (by decide)⟩

theorem index_entry_after_set_data {Rec : Type} (c : CacheDef Rec) (st : Store) (r : Rec)
    (data : PyObj) (suffix : String) (ik : String)
    (hik : ik ∈ SerializedModelCacheWithIndexes.get_index_keys c r) :
    storeGet (SerializedModelCacheWithIndexes.set_data c st r data suffix) ik c.version
      = some (Stored.obj (PyObj.pstr (c.lookupOf r))) := by
  simp only [SerializedModelCacheWithIndexes.set_data,
    SerializedModelCacheWithIndexes.set_indexes]
  exact storeGet_foldl_set_mem _ _ _ _ _ hik

/-- C6 counterexample: the claim asserts that delete removes the record's
index entries, but the index-entry deletes are issued without
`version=self.version`, so they target the backend's default version
namespace.  With `version = 2` over a backend whose default version is 1,
after `set` then `delete` the index entry is still present in the cache's
version-2 namespace (the claim's observable `get` / `getForIndex`
conclusions still hold — see the amended theorem — but the entry is not
removed). -/
theorem C6_stale_index_cex :
    storeGet ((SerializedModelCacheWithIndexes.delete demoIndexedV2
          ((SerializedModelCacheWithIndexes.set demoIndexedV2 [] "1" "").2) "1" "").1)
        "C:i:slug:abc" 2 = some (Stored.obj (PyObj.pstr "1"))
    ∧ ¬ (storeGet ((SerializedModelCacheWithIndexes.delete demoIndexedV2
          ((SerializedModelCacheWithIndexes.set demoIndexedV2 [] "1" "").2) "1" "").1)
        "C:i:slug:abc" 2 = none) := by
  have heval : storeGet ((SerializedModelCacheWithIndexes.delete demoIndexedV2
        ((SerializedModelCacheWithIndexes.set demoIndexedV2 [] "1" "").2) "1" "").1)
      "C:i:slug:abc" 2 = some (Stored.obj (PyObj.pstr "1")) := rfl
  exact ⟨heval, fun h => Option.noConfusion (heval.symm.trans h)⟩

/-- C6 (amended): for every record stored in an indexed cache, after
`delete(record)`: `get(lookupValue(record))` returns nil, and
`getForIndex(indexName, value)` returns nil for every pair extracted from
the record's stored state (when the surviving index entry still resolves,
the primary entry is already gone, so the result is a miss).  The
index-entry deletes are issued before the primary pattern delete, but
against the backend's default version namespace: the index entries are
actually removed exactly when the cache's version equals the backend's
default version; with any other version they persist as orphans (see the
counterexample). -/
theorem C6_delete_completeness {Rec : Type} (c : CacheDef Rec) (st : Store) (r : Rec)
    (suffix : String) :
    SerializedModelCache.get c
        ((SerializedModelCacheWithIndexes.delete c
          ((SerializedModelCacheWithIndexes.set c st r suffix).2) r suffix).1)
        (c.lookupOf r) suffix = none
    ∧ (∀ index_name getter index_value, (index_name, getter) ∈ c.indexes →
        index_value ∈ getter r →
        SerializedModelCacheWithIndexes.get_for_index c
          ((SerializedModelCacheWithIndexes.delete c
            ((SerializedModelCacheWithIndexes.set c st r suffix).2) r suffix).1)
          index_name index_value suffix = Except.ok none)
    ∧ (c.backendDefaultVersion = c.version →
        ∀ ik ∈ SerializedModelCacheWithIndexes.get_index_keys c r,
          storeGet ((SerializedModelCacheWithIndexes.delete c
            ((SerializedModelCacheWithIndexes.set c st r suffix).2) r suffix).1) ik c.version
            = none) := by
  have hprim : ∀ st0 : Store, SerializedModelCache.get c
      ((SerializedModelCacheWithIndexes.delete c st0 r suffix).1) (c.lookupOf r) suffix
      = none := by
    intro st0
    unfold SerializedModelCacheWithIndexes.delete SerializedModelCache.delete
      SerializedModelCache.get
    rw [storeDeletePattern_get, if_pos ⟨strHasPrefix_refl _, rfl⟩]
    exact decompress_none c
  refine ⟨hprim _, fun index_name getter index_value hidx hval => ?_, fun hv ik hik => ?_⟩
  · have hmem : index_name ∈ SerializedModelCacheWithIndexes.index_names c :=
      List.mem_map.mpr ⟨(index_name, getter), hidx, rfl⟩
    have hik : SerializedModelCacheWithIndexes.make_index_key c index_name index_value
        ∈ SerializedModelCacheWithIndexes.get_index_keys c r := by
      unfold SerializedModelCacheWithIndexes.get_index_keys
      exact List.mem_flatMap.mpr ⟨(index_name, getter), hidx,
        List.mem_map.mpr ⟨index_value, hval, rfl⟩⟩
    have hcases : storeGet ((SerializedModelCacheWithIndexes.delete c
          ((SerializedModelCacheWithIndexes.set c st r suffix).2) r suffix).1)
        (SerializedModelCacheWithIndexes.make_index_key c index_name index_value) c.version
          = none
        ∨ storeGet ((SerializedModelCacheWithIndexes.delete c
          ((SerializedModelCacheWithIndexes.set c st r suffix).2) r suffix).1)
        (SerializedModelCacheWithIndexes.make_index_key c index_name index_value) c.version
          = some (Stored.obj (PyObj.pstr (c.lookupOf r))) := by
      simp only [SerializedModelCacheWithIndexes.delete, SerializedModelCache.delete]
      rw [storeDeletePattern_get]
      by_cases h1 : strHasPrefix (SerializedModelCache.make_key c (c.lookupOf r) suffix)
          (SerializedModelCacheWithIndexes.make_index_key c index_name index_value) = true
          ∧ c.version = c.version
      · rw [if_pos h1]
        exact Or.inl rfl
      · rw [if_neg h1, storeGet_foldl_delete]
        by_cases h2 : SerializedModelCacheWithIndexes.make_index_key c index_name index_value
            ∈ SerializedModelCacheWithIndexes.get_index_keys c r
            ∧ c.version = c.backendDefaultVersion
        · rw [if_pos h2]
          exact Or.inl rfl
        · rw [if_neg h2]
          exact Or.inr (by
            simp only [SerializedModelCacheWithIndexes.set]
            exact index_entry_after_set_data c st r (c.serialize r) suffix _ hik)
    rcases hcases with hc | hc
    · simp only [SerializedModelCacheWithIndexes.get_for_index, if_pos hmem, hc]
    · simp only [SerializedModelCacheWithIndexes.get_for_index, if_pos hmem, hc, fstr]
      rw [hprim ((SerializedModelCacheWithIndexes.set c st r suffix).2)]
  · simp only [SerializedModelCacheWithIndexes.delete, SerializedModelCache.delete]
    rw [storeDeletePattern_get]
    by_cases h1 : strHasPrefix (SerializedModelCache.make_key c (c.lookupOf r) suffix) ik = true
        ∧ c.version = c.version
    · rw [if_pos h1]
    · rw [if_neg h1, storeGet_foldl_delete, if_pos ⟨hik, hv.symm⟩]

/-- C6 witness: set-then-delete of record "3" on the demo indexed cache
(version equal to the backend default): the primary entry reads as nil,
the slug index resolves to nil, and the index entry itself is gone. -/
theorem C6_delete_completeness_witness :
    SerializedModelCache.get demoIndexed
        ((SerializedModelCacheWithIndexes.delete demoIndexed
          ((SerializedModelCacheWithIndexes.set demoIndexed [] "3" "").2) "3" "").1) "3" ""
        = none
    ∧ SerializedModelCacheWithIndexes.get_for_index demoIndexed
        ((SerializedModelCacheWithIndexes.delete demoIndexed
          ((SerializedModelCacheWithIndexes.set demoIndexed [] "3" "").2) "3" "").1)
        "slug" "abc" "" = Except.ok none
    ∧ storeGet ((SerializedModelCacheWithIndexes.delete demoIndexed
          ((SerializedModelCacheWithIndexes.set demoIndexed [] "3" "").2) "3" "").1)
        "C:i:slug:abc" 1 = none :=
  ⟨(C6_delete_completeness demoIndexed [] "3" "").1,
    (C6_delete_completeness demoIndexed [] "3" "").2.1 "slug" demoSlugGetter "abc"
      (List.Mem.head _) (List.Mem.head _),
    (C6_delete_completeness demoIndexed [] "3" "").2.2 rfl "C:i:slug:abc" (by decide)⟩

/-- C8: with the force-refresh flag set, `retrieve` skips the cache
lookup entirely — whatever the backend holds (including a valid entry),
the record is re-loaded from the store of truth, its freshly serialized
representation is returned, and (with the default store decision) the
write-through overwrites the cached entry, so a subsequent `get` returns
the fresh representation.  (The provisos: the record exists in the store
of truth under the requested lookup value, the store decision accepts it,
and the record's primary key does not collide with one of its own index
keys — automatic for a non-indexed cache.) -/
theorem C8_force_refresh {Rec : Type} (v : ViewCfg Rec) (db : List Rec) (st : Store)
    (lookup_value suffix : String) (r : Rec)
    (hobj : db.find? (fun x => v.cache.lookupOf x == lookup_value) = some r)
    (hlv : v.cache.lookupOf r = lookup_value)
    (hci : v.cache_instance r = true)
    (hnc : SerializedModelCache.make_key v.cache lookup_value suffix
      ∉ SerializedModelCacheWithIndexes.get_index_keys v.cache r) :
    CachedRetrieveModelMixin.retrieve v db st true lookup_value suffix
      = some (Stored.obj (v.cache.serialize r),
          (CachedMixin.get_and_cache_data v st r suffix).2)
    ∧ SerializedModelCache.get v.cache ((CachedMixin.get_and_cache_data v st r suffix).2)
        lookup_value suffix = some (Stored.obj (v.cache.serialize r)) := by
  constructor
  · simp only [CachedRetrieveModelMixin.retrieve, CachedMixin.get_from_cache, if_true, hobj]
    rw [get_and_cache_data_fst]
  · unfold CachedMixin.get_and_cache_data
    rw [if_pos hci, ← hlv]
    exact get_after_dispatch_set v.cache st r suffix (by rw [hlv]; exact hnc)

/-- C8 witness: force-refresh on record "7" while the backend holds a
stale entry for it: the response carries the fresh serialization and the
stale entry has been overwritten. -/
theorem C8_force_refresh_witness :
    (["7"].find? (fun x => demoCacheOff.lookupOf x == "7") = some "7")
    ∧ demoView.cache_instance "7" = true
    ∧ CachedRetrieveModelMixin.retrieve demoView ["7"] demoStaleStore true "7" ""
      = some (Stored.obj (demoSerialize "7"),
          (CachedMixin.get_and_cache_data demoView demoStaleStore "7" "").2)
    ∧ SerializedModelCache.get demoCacheOff
        ((CachedMixin.get_and_cache_data demoView demoStaleStore "7" "").2) "7" ""
      = some (Stored.obj (demoSerialize "7")) :=
  ⟨rfl, rfl,
    (C8_force_refresh demoView ["7"] demoStaleStore "7" "" "7" rfl rfl rfl (by decide)).1,
    (C8_force_refresh demoView ["7"] demoStaleStore "7" "" "7" rfl rfl rfl (by decide)).2⟩

/-! ## Lemmas about the batch list endpoint -/

theorem get?_set_self {α : Type} :
    ∀ (l : List α) (i : Nat) (a : α), i < l.length → (l.set i a).get? i = some a := by
  intro l
  induction l with
  | nil => intro i a h; cases h
  | cons x l ih =>
    intro i a h
    cases i with
    | zero => rfl
    | succ i => exact ih i a (by simpa using h)

theorem get?_set_ne {α : Type} :
    ∀ (l : List α) (i j : Nat) (a : α), i ≠ j → (l.set i a).get? j = l.get? j := by
  intro l
  induction l with
  | nil => intro i j a h; rfl
  | cons x l ih =>
    intro i j a h
    cases i with
    | zero =>
      cases j with
      | zero => exact absurd rfl h
      | succ j => rfl
    | succ i =>
      cases j with
      | zero => rfl
      | succ j => exact ih i j a (fun hh => h (by rw [hh]))

theorem zip_get? {α β : Type} :
    ∀ (l1 : List α) (l2 : List β) (j : Nat) (p : α × β),
      (l1.zip l2).get? j = some p → l1.get? j = some p.1 ∧ l2.get? j = some p.2 := by
  intro l1
  induction l1 with
  | nil => intro l2 j p h; simp [List.zip] at h
  | cons a l1 ih =>
    intro l2 j p h
    cases l2 with
    | nil => simp [List.zip] at h
    | cons b l2 =>
      cases j with
      | zero =>
        have hp : (a, b) = p := Option.some.inj h
        rw [← hp]
        exact ⟨rfl, rfl⟩
      | succ j => exact ih l2 j p h

theorem zip_get?_of {α β : Type} :
    ∀ (l1 : List α) (l2 : List β) (j : Nat) (a : α) (b : β),
      l1.get? j = some a → l2.get? j = some b → (l1.zip l2).get? j = some (a, b) := by
  intro l1
  induction l1 with
  | nil => intro l2 j a b h1 h2; cases h1
  | cons x l1 ih =>
    intro l2 j a b h1 h2
    cases l2 with
    | nil => cases h2
    | cons y l2 =>
      cases j with
      | zero =>
        rw [Option.some.inj h1, Option.some.inj h2]
        rfl
      | succ j => exact ih l2 j a b h1 h2

theorem get?_some_lt {α : Type} :
    ∀ (l : List α) (j : Nat) (a : α), l.get? j = some a → j < l.length := by
  intro l
  induction l with
  | nil => intro j a h; cases h
  | cons x l ih =>
    intro j a h
    cases j with
    | zero => simp
    | succ j => simpa using ih j a h

theorem pairwise_lt_get? :
    ∀ (l : List Nat), List.Pairwise (· < ·) l →
      ∀ j k a b, j < k → l.get? j = some a → l.get? k = some b → a < b := by
  intro l
  induction l with
  | nil => intro _ j k a b _ h; cases h
  | cons x l ih =>
    intro hp j k a b hjk hj hk
    rw [List.pairwise_cons] at hp
    cases j with
    | zero =>
      cases k with
      | zero => cases hjk
      | succ k =>
        rw [← Option.some.inj hj]
        exact hp.1 b (List.get?_mem hk)
    | succ j =>
      cases k with
      | zero => cases hjk
      | succ k => exact ih hp.2 j k a b (by omega) hj hk

theorem listScan_length {Rec : Type} (c : CacheDef Rec) (st : Store) (suffix : String) :
    ∀ (page : List String) (i : Nat),
      ((CachedListModelMixin.listScan c st suffix page i).1).length = page.length := by
  intro page
  induction page with
  | nil => intro i; rfl
  | cons lv page ih =>
    intro i
    cases hd : SerializedModelCache.get c st lv suffix <;>
      simp [CachedListModelMixin.listScan, hd, ih]

theorem listScan_idx_mem {Rec : Type} (c : CacheDef Rec) (st : Store) (suffix : String) :
    ∀ (page : List String) (i0 i : Nat),
      i ∈ (CachedListModelMixin.listScan c st suffix page i0).2.1 → i0 ≤ i := by
  intro page
  induction page with
  | nil => intro i0 i h; cases h
  | cons lv page ih =>
    intro i0 i h
    cases hd : SerializedModelCache.get c st lv suffix with
    | none =>
      rw [CachedListModelMixin.listScan] at h
      simp only [hd] at h
      rcases List.mem_cons.mp h with h2 | h2
      · omega
      · have := ih (i0 + 1) i h2
        omega
    | some x =>
      rw [CachedListModelMixin.listScan] at h
      simp only [hd] at h
      have := ih (i0 + 1) i h
      omega

theorem listScan_idx_pairwise {Rec : Type} (c : CacheDef Rec) (st : Store) (suffix : String) :
    ∀ (page : List String) (i0 : Nat),
      List.Pairwise (· < ·) (CachedListModelMixin.listScan c st suffix page i0).2.1 := by
  intro page
  induction page with
  | nil => intro i0; exact List.Pairwise.nil
  | cons lv page ih =>
    intro i0
    cases hd : SerializedModelCache.get c st lv suffix with
    | none =>
      rw [CachedListModelMixin.listScan]
      simp only [hd]
      refine List.Pairwise.cons ?_ (ih (i0 + 1))
      intro b hb
      have := listScan_idx_mem c st suffix page (i0 + 1) b hb
      omega
    | some x =>
      rw [CachedListModelMixin.listScan]
      simp only [hd]
      exact ih (i0 + 1)

theorem listScan_idx_get {Rec : Type} (c : CacheDef Rec) (st : Store) (suffix : String) :
    ∀ (page : List String) (i0 j i : Nat),
      (CachedListModelMixin.listScan c st suffix page i0).2.1.get? j = some i →
      i0 ≤ i ∧ i - i0 < page.length
        ∧ ((CachedListModelMixin.listScan c st suffix page i0).1).get? (i - i0)
            = some none := by
  intro page
  induction page with
  | nil => intro i0 j i h; cases h
  | cons lv page ih =>
    intro i0 j i h
    cases hd : SerializedModelCache.get c st lv suffix with
    | none =>
      rw [CachedListModelMixin.listScan] at h ⊢
      simp only [hd] at h ⊢
      cases j with
      | zero =>
        have hi : i0 = i := Option.some.inj h
        subst hi
        simp
      | succ j =>
        obtain ⟨h1, h2, h3⟩ := ih (i0 + 1) j i h
        refine ⟨by omega, by simp; omega, ?_⟩
        have he : i - i0 = (i - (i0 + 1)) + 1 := by omega
        rw [he]
        exact h3
    | some x =>
      rw [CachedListModelMixin.listScan] at h ⊢
      simp only [hd] at h ⊢
      obtain ⟨h1, h2, h3⟩ := ih (i0 + 1) j i h
      refine ⟨by omega, by simp; omega, ?_⟩
      have he : i - i0 = (i - (i0 + 1)) + 1 := by omega
      rw [he]
      exact h3

theorem listFill_untouched {Rec : Type} (v : ViewCfg Rec) (suffix : String) :
    ∀ (pairs : List (Nat × Rec)) (st : Store) (res : List (Option Stored)) (i : Nat),
      (∀ p ∈ pairs, p.1 ≠ i) →
      ((CachedListModelMixin.listFill v suffix pairs st res).1).get? i = res.get? i := by
  intro pairs
  induction pairs with
  | nil => intro st res i _; rfl
  | cons p0 pairs ih =>
    intro st res i h
    obtain ⟨i0, r0⟩ := p0
    rw [CachedListModelMixin.listFill]
    rw [ih _ _ i (fun p hp => h p (List.mem_cons_of_mem _ hp))]
    exact get?_set_ne _ _ _ _ (h (i0, r0) (List.mem_cons_self _ _))

theorem listFill_length {Rec : Type} (v : ViewCfg Rec) (suffix : String) :
    ∀ (pairs : List (Nat × Rec)) (st : Store) (res : List (Option Stored)),
      ((CachedListModelMixin.listFill v suffix pairs st res).1).length = res.length := by
  intro pairs
  induction pairs with
  | nil => intro st res; rfl
  | cons p0 pairs ih =>
    intro st res
    obtain ⟨i0, r0⟩ := p0
    rw [CachedListModelMixin.listFill, ih, List.length_set]

theorem listFill_hit {Rec : Type} (v : ViewCfg Rec) (suffix : String) :
    ∀ (pairs : List (Nat × Rec)) (st : Store) (res : List (Option Stored)) (j i : Nat)
      (r : Rec),
      pairs.get? j = some (i, r) → i < res.length →
      (∀ k p, j < k → pairs.get? k = some p → p.1 ≠ i) →
      ((CachedListModelMixin.listFill v suffix pairs st res).1).get? i
        = some (some (Stored.obj (v.cache.serialize r))) := by
  intro pairs
  induction pairs with
  | nil => intro st res j i r h; cases h
  | cons p0 pairs ih =>
    intro st res j i r h hlen hlater
    obtain ⟨i0, r0⟩ := p0
    cases j with
    | zero =>
      have hp : (i0, r0) = (i, r) := Option.some.inj h
      have hi : i0 = i := congrArg Prod.fst hp
      have hr : r0 = r := congrArg Prod.snd hp
      subst hi
      subst hr
      rw [CachedListModelMixin.listFill]
      rw [listFill_untouched v suffix pairs _ _ i0 (fun p hp2 => by
        obtain ⟨k, hk⟩ := List.get?_of_mem hp2
        exact hlater (k + 1) p (Nat.succ_pos k) hk)]
      rw [get?_set_self _ _ _ hlen, get_and_cache_data_fst]
    | succ j =>
      rw [CachedListModelMixin.listFill]
      exact ih _ _ j i r h (by rw [List.length_set]; exact hlen)
        (fun k p hk hp => hlater (k + 1) p (by omega) hp)

/-- C10: when the batched store query returns fewer records than there
are cache misses, the list endpoint does not fail: the miss positions are
paired with the returned records positionally in order (the j-th returned
record lands at the j-th miss index and is the record the endpoint caches
and serializes), and every miss position beyond the number of returned
records keeps its initial `None` placeholder in the result sequence — the
implemented policy for the deleted-between-page-and-fetch race is
"return null for that slot". -/
theorem C10_short_batch {Rec : Type} (v : ViewCfg Rec) (storeQuery : List String → List Rec)
    (st : Store) (suffix : String) (page : List String) :
    (∀ j i r,
        (CachedListModelMixin.listScan v.cache st suffix page 0).2.1.get? j = some i →
        (storeQuery (CachedListModelMixin.listScan v.cache st suffix page 0).2.2).get? j
          = some r →
        ((CachedListModelMixin.list v storeQuery st suffix page).1).get? i
          = some (some (Stored.obj (v.cache.serialize r))))
    ∧ (∀ j i,
        (CachedListModelMixin.listScan v.cache st suffix page 0).2.1.get? j = some i →
        (storeQuery (CachedListModelMixin.listScan v.cache st suffix page 0).2.2).length
          ≤ j →
        ((CachedListModelMixin.list v storeQuery st suffix page).1).get? i = some none) := by
  constructor
  · intro j i r hj hr
    have hpair := zip_get?_of _ _ j i r hj hr
    obtain ⟨h1, h2, h3⟩ := listScan_idx_get v.cache st suffix page 0 j i hj
    have hlen : i < ((CachedListModelMixin.listScan v.cache st suffix page 0).1).length := by
      rw [listScan_length]
      omega
    rw [CachedListModelMixin.list]
    exact listFill_hit v suffix _ st _ j i r hpair hlen (fun k p hk hp => by
      obtain ⟨hpk, _⟩ := zip_get? _ _ k p hp
      have := pairwise_lt_get? _ (listScan_idx_pairwise v.cache st suffix page 0)
        j k i p.1 hk hj hpk
      omega)
  · intro j i hj hshort
    obtain ⟨h1, h2, h3⟩ := listScan_idx_get v.cache st suffix page 0 j i hj
    rw [CachedListModelMixin.list]
    rw [listFill_untouched v suffix _ st _ i (fun p hp => by
      obtain ⟨k, hk⟩ := List.get?_of_mem hp
      obtain ⟨hpk, hpl⟩ := zip_get? _ _ k p hk
      have hklt : k < j := by
        have := get?_some_lt _ k p.2 hpl
        omega
      have := pairwise_lt_get? _ (listScan_idx_pairwise v.cache st suffix page 0)
        k j p.1 i hklt hpk hj
      omega)]
    simpa using h3

/-- C10 witness: page ["1", "2"] against an empty cache (two misses)
while the store of truth only returns the record "2": the returned record
is paired with the first miss index and the second slot stays `None`. -/
theorem C10_short_batch_witness :
    ((CachedListModelMixin.list demoView demoQuery [] "" ["1", "2"]).1).get? 0
        = some (some (Stored.obj (demoSerialize "2")))
    ∧ ((CachedListModelMixin.list demoView demoQuery [] "" ["1", "2"]).1).get? 1
        = some none :=
  ⟨(C10_short_batch demoView demoQuery [] "" ["1", "2"]).1 0 0 "2" rfl rfl,
    (C10_short_batch demoView demoQuery [] "" ["1", "2"]).2 1 1 rfl (by decide)⟩

/-- C1: evaluation of the batch list endpoint at the failing input.  Page
["5", "2", "9"] with "5" a cache hit and "2", "9" misses; the store of
truth returns the missed records in its own order ["9", "2"], not in
miss-list order ["2", "9"].  The second loop of `list` zips the miss
indexes [1, 2] positionally with the returned records, so record 9's data
lands in slot 1 and record 2's data in slot 2: the endpoint returns
[data(5), data(9), data(2)] where the claim requires each loaded record
to be re-associated with the index of the miss it satisfies,
i.e. [data(5), data(2), data(9)]. -/
theorem C1_batch_order_eval :
    (CachedListModelMixin.list demoView demoQuery demoStore5 "" ["5", "2", "9"]).1
      = [some (Stored.obj (demoSerialize "5")), some (Stored.obj (demoSerialize "9")),
          some (Stored.obj (demoSerialize "2"))]
    ∧ ¬ ((CachedListModelMixin.list demoView demoQuery demoStore5 "" ["5", "2", "9"]).1
      = [some (Stored.obj (demoSerialize "5")), some (Stored.obj (demoSerialize "2")),
          some (Stored.obj (demoSerialize "9"))]) := by
  have heval : (CachedListModelMixin.list demoView demoQuery demoStore5 "" ["5", "2", "9"]).1
      = [some (Stored.obj (demoSerialize "5")), some (Stored.obj (demoSerialize "9")),
          some (Stored.obj (demoSerialize "2"))] := rfl
  refine ⟨heval, fun h => ?_⟩
  have h2 := heval.symm.trans h
  have h3 : (some (some (Stored.obj (demoSerialize "9"))) : Option (Option Stored))
      = some (some (Stored.obj (demoSerialize "2"))) := congrArg (fun l => l.get? 1) h2
  injection h3 with h4
  injection h4 with h5
  injection h5 with h6
  have h7 : PyObj.pdict
        [("id", PyObj.pstr "9"), ("tags", PyObj.plist [PyObj.pint 1, PyObj.none_])]
      = PyObj.pdict
        [("id", PyObj.pstr "2"), ("tags", PyObj.plist [PyObj.pint 1, PyObj.none_])] := h6
  injection h7 with h8
  injection h8 with h9 h10
  injection h9 with h11 h12
  injection h12 with h13
  exact absurd h13 (by decide)
